import Mathlib

/-!
Shallow embedding of the ratatui menu application (`src/main.rs`).

State: `App` with an exit latch, a fixed list of menu item labels and the
index of the active item.  Input: crossterm-style events (key events with a
kind distinguishing press from release/repeat, plus non-key events).  The
handlers `menu_up`, `menu_down`, `exitApp`, `handle_key_event` and
`handle_events` translate the methods of `impl App` one for one.  The
`render` function produces an abstract description of the widget tree built
by `impl Widget for &App`.  `run` models the draw/handle loop with explicit
draw and event-read results, each possibly an I/O error.
-/

/-- Colors used by the render code (`.blue()`, `.red()`). -/
inductive Color where
  | Blue
  | Red
deriving DecidableEq, Repr

/-- A styled piece of text: content plus the bold flag and optional color
applied through `Stylize`. -/
structure Span where
  content : String
  bold : Bool
  color : Option Color
deriving DecidableEq, Repr

/-- Key codes relevant to the application, mirroring `crossterm::event::KeyCode`
(the codes the app never matches are represented by the remaining
constructors and fall into the wildcard arm). -/
inductive KeyCode where
  | Up
  | Down
  | Left
  | Right
  | Enter
  | Esc
  | Backspace
  | Tab
  | Char (c : Char)
deriving DecidableEq, Repr

/-- `crossterm::event::KeyEventKind`. -/
inductive KeyEventKind where
  | Press
  | Release
  | Repeat
deriving DecidableEq, Repr

/-- `crossterm::event::KeyEvent`, restricted to the fields the app reads. -/
structure KeyEvent where
  code : KeyCode
  kind : KeyEventKind
deriving DecidableEq, Repr

/-- `crossterm::event::Event`: key events plus the non-key variants that the
app ignores via the wildcard arm of `handle_events`. -/
inductive Event where
  | Key (k : KeyEvent)
  | Resize (w h : Nat)
  | FocusGained
  | FocusLost
  | Paste (s : String)
  | Mouse
deriving DecidableEq, Repr

/-- The application state `App { exit, menu_items, active_menu_item }`. -/
structure App where
  exit : Bool
  menu_items : List String
  active_menu_item : Nat
deriving DecidableEq, Repr

/-- `App::default()`: exit false, items `["One", "Two", "Three"]`, index 0. -/
def App.default : App :=
  { exit := false, menu_items := ["One", "Two", "Three"], active_menu_item := 0 }

/-- `App::menu_up`: wrap to `len - 1` from 0, otherwise decrement. -/
def menu_up (a : App) : App :=
  if a.active_menu_item = 0 then
    { a with active_menu_item := a.menu_items.length - 1 }
  else
    { a with active_menu_item := a.active_menu_item - 1 }

/-- `App::menu_down`: wrap to 0 from `len - 1`, otherwise increment. -/
def menu_down (a : App) : App :=
  if a.active_menu_item = a.menu_items.length - 1 then
    { a with active_menu_item := 0 }
  else
    { a with active_menu_item := a.active_menu_item + 1 }

/-- `App::exit`: set the exit latch. -/
def exitApp (a : App) : App :=
  { a with exit := true }

/-- `App::handle_key_event`: dispatch on the key code; `q` exits, Up/`j` move
up, Down/`k` move down, everything else is a no-op. -/
def handle_key_event (a : App) (key_event : KeyEvent) : App :=
  match key_event.code with
  | .Char c =>
      if c = 'q' then exitApp a
      else if c = 'j' then menu_up a
      else if c = 'k' then menu_down a
      else a
  | .Up => menu_up a
  | .Down => menu_down a
  | _ => a

/-- `App::handle_events`, given the event already read: only key events whose
kind is `Press` are dispatched, everything else falls to the wildcard arm. -/
def handle_events (a : App) (e : Event) : App :=
  match e with
  | .Key k => if k.kind = .Press then handle_key_event a k else a
  | _ => a

/-- Folding `handle_events` over a sequence of input events. -/
def processEvents (a : App) (es : List Event) : App :=
  es.foldl handle_events a

/-- Abstract result of `impl Widget for &App`: the bordered block with its
top title and bottom instruction line, and the centered paragraph of menu
lines. -/
structure RenderModel where
  borderThick : Bool
  title : Span
  titleCentered : Bool
  instructions : List Span
  instructionsBottom : Bool
  instructionsCentered : Bool
  menu : List Span
  menuCentered : Bool
deriving DecidableEq, Repr

/-- The `render` method of `impl Widget for &App`: thick border, bold
centered title, centered bottom instructions `" Quit "` and `"<Q> "`
(blue bold), and one line per menu item in order, the active one styled
bold red. -/
def render (a : App) : RenderModel :=
  { borderThick := true
    title := ⟨" Test Application Main Menu ", true, none⟩
    titleCentered := true
    instructions := [⟨" Quit ", false, none⟩, ⟨"<Q> ", true, some Color.Blue⟩]
    instructionsBottom := true
    instructionsCentered := true
    menu := a.menu_items.enum.map (fun p =>
      if a.active_menu_item = p.1 then ⟨p.2, true, some Color.Red⟩
      else ⟨p.2, false, none⟩)
    menuCentered := true }

/-- `App::run` on explicit I/O traces: each iteration checks the exit flag,
consumes one draw result and one event-read result; a failing draw or read
propagates its error immediately via `?`.  `none` models running out of the
supplied trace (the loop would block for more input). -/
def run (a : App) (ds : List (Except String Unit)) (es : List (Except String Event)) :
    Option (Except String App) :=
  if a.exit then some (.ok a)
  else
    match ds, es with
    | [], _ => none
    | .error e :: _, _ => some (.error e)
    | .ok _ :: _, [] => none
    | .ok _ :: _, .error e :: _ => some (.error e)
    | .ok _ :: ds', .ok ev :: es' => run (handle_events a ev) ds' es'
termination_by ds.length
decreasing_by simp_wf

/-- A key press (not release/repeat) of one of the keys the app handles:
`q`, Up, `j`, Down, `k`. -/
def isHandledPress (e : Event) : Bool :=
  match e with
  | .Key k =>
      k.kind == .Press &&
        (k.code == .Up || k.code == .Down || k.code == .Char 'q' ||
          k.code == .Char 'j' || k.code == .Char 'k')
  | _ => false

/-- The new index computed by `App::menu_up`, with the subtraction carried
out in `Int` (no truncation): the value `self.menu_items.len() - 1` or
`self.active_menu_item - 1` would have as exact integers. -/
def menu_upZ (a : App) : Int :=
  if a.active_menu_item = 0 then (a.menu_items.length : Int) - 1
  else (a.active_menu_item : Int) - 1

/-- The new index computed by `App::menu_down`, with the comparison against
`self.menu_items.len() - 1` carried out in `Int` (no truncation). -/
def menu_downZ (a : App) : Int :=
  if (a.active_menu_item : Int) = (a.menu_items.length : Int) - 1 then 0
  else (a.active_menu_item : Int) + 1

/-! ### Basic facts about the handlers -/

lemma menu_up_items (a : App) : (menu_up a).menu_items = a.menu_items := by
  unfold menu_up; split <;> rfl

lemma menu_down_items (a : App) : (menu_down a).menu_items = a.menu_items := by
  unfold menu_down; split <;> rfl

lemma menu_up_exit (a : App) : (menu_up a).exit = a.exit := by
  unfold menu_up; split <;> rfl

lemma menu_down_exit (a : App) : (menu_down a).exit = a.exit := by
  unfold menu_down; split <;> rfl

lemma menu_up_active (a : App) :
    (menu_up a).active_menu_item =
      if a.active_menu_item = 0 then a.menu_items.length - 1
      else a.active_menu_item - 1 := by
  unfold menu_up; split <;> simp [*]

lemma menu_down_active (a : App) :
    (menu_down a).active_menu_item =
      if a.active_menu_item = a.menu_items.length - 1 then 0
      else a.active_menu_item + 1 := by
  unfold menu_down; split <;> simp [*]

lemma menu_up_lt (a : App) (h2 : a.active_menu_item < a.menu_items.length) :
    (menu_up a).active_menu_item < a.menu_items.length := by
  rw [menu_up_active]; split <;> omega

lemma menu_down_lt (a : App) (h2 : a.active_menu_item < a.menu_items.length) :
    (menu_down a).active_menu_item < a.menu_items.length := by
  rw [menu_down_active]; split <;> omega

lemma menu_down_active_mod (a : App)
    (h2 : a.active_menu_item < a.menu_items.length) :
    (menu_down a).active_menu_item =
      (a.active_menu_item + 1) % a.menu_items.length := by
  rw [menu_down_active]; split
  · rename_i h
    have hlen : a.active_menu_item + 1 = a.menu_items.length := by omega
    rw [hlen, Nat.mod_self]
  · rename_i h
    rw [Nat.mod_eq_of_lt (by omega)]

lemma menu_up_active_mod (a : App)
    (h2 : a.active_menu_item < a.menu_items.length) :
    (menu_up a).active_menu_item =
      (a.active_menu_item + (a.menu_items.length - 1)) % a.menu_items.length := by
  rw [menu_up_active]; split
  · rename_i h
    rw [h, Nat.zero_add, Nat.mod_eq_of_lt (by omega)]
  · rename_i h
    have hsplit : a.active_menu_item + (a.menu_items.length - 1) =
        (a.active_menu_item - 1) + a.menu_items.length := by omega
    rw [hsplit, Nat.add_mod_right, Nat.mod_eq_of_lt (by omega)]

lemma handle_events_press_up (a : App) :
    handle_events a (.Key ⟨.Up, .Press⟩) = menu_up a := rfl

lemma handle_events_press_j (a : App) :
    handle_events a (.Key ⟨.Char 'j', .Press⟩) = menu_up a := rfl

lemma handle_events_press_down (a : App) :
    handle_events a (.Key ⟨.Down, .Press⟩) = menu_down a := rfl

lemma handle_events_press_k (a : App) :
    handle_events a (.Key ⟨.Char 'k', .Press⟩) = menu_down a := rfl

/-! ### C1: wrapping selection moves -/

/-- C1: for every in-range state, a key-press of Up or `j` sets the index to
`item_count - 1` when it was 0 and decrements it otherwise, and a key-press
of Down or `k` sets the index to 0 when it was `item_count - 1` and
increments it otherwise. -/
theorem claim_up_down_wrap (a : App) (h1 : 1 ≤ a.menu_items.length)
    (h2 : a.active_menu_item < a.menu_items.length) :
    (∀ c, (c = KeyCode.Up ∨ c = KeyCode.Char 'j') →
      (handle_events a (.Key ⟨c, .Press⟩)).active_menu_item =
        if a.active_menu_item = 0 then a.menu_items.length - 1
        else a.active_menu_item - 1) ∧
    (∀ c, (c = KeyCode.Down ∨ c = KeyCode.Char 'k') →
      (handle_events a (.Key ⟨c, .Press⟩)).active_menu_item =
        if a.active_menu_item = a.menu_items.length - 1 then 0
        else a.active_menu_item + 1) := by
  constructor
  · rintro c (rfl | rfl)
    · rw [handle_events_press_up, menu_up_active]
    · rw [handle_events_press_j, menu_up_active]
  · rintro c (rfl | rfl)
    · rw [handle_events_press_down, menu_down_active]
    · rw [handle_events_press_k, menu_down_active]

/-- Witness for C1 at the default state: pressing Up at index 0 of the
3-item list wraps to index 2. -/
theorem claim_up_down_wrap_witness :
    1 ≤ App.default.menu_items.length ∧
    App.default.active_menu_item < App.default.menu_items.length ∧
    (handle_events App.default
      (.Key ⟨KeyCode.Up, .Press⟩)).active_menu_item = 2 := by
  refine ⟨by decide, by decide, ?_⟩
  have h := (claim_up_down_wrap App.default (by decide) (by decide)).1
    KeyCode.Up (Or.inl rfl)
  simpa [App.default] using h

/-! ### C3: q sets the exit latch and nothing else -/

/-- C3: for every state, a key-press of `q` sets the exit flag and leaves
the item list and the selected index unchanged. -/
theorem claim_q_sets_exit (a : App) :
    handle_events a (.Key ⟨KeyCode.Char 'q', .Press⟩) = { a with exit := true } := rfl

/-! ### C5: pressing Down item_count times is the identity on the index -/

lemma menu_down_iterate_active (k : Nat) (a : App)
    (h2 : a.active_menu_item < a.menu_items.length) :
    (menu_down^[k] a).menu_items = a.menu_items ∧
    (menu_down^[k] a).active_menu_item =
      (a.active_menu_item + k) % a.menu_items.length := by
  induction k generalizing a with
  | zero => simpa using (Nat.mod_eq_of_lt h2).symm
  | succ k ih =>
      rw [Function.iterate_succ_apply]
      have hlt : (menu_down a).active_menu_item < (menu_down a).menu_items.length := by
        rw [menu_down_items]; exact menu_down_lt a h2
      obtain ⟨hi, ha⟩ := ih (menu_down a) hlt
      refine ⟨by rw [hi, menu_down_items], ?_⟩
      rw [ha, menu_down_items, menu_down_active_mod a h2, Nat.mod_add_mod]
      congr 1
      omega

/-- C5: for every in-range state, applying the Down key-press handler
`item_count` times returns the selected index to its original value. -/
theorem claim_down_cycle (a : App) (h1 : 1 ≤ a.menu_items.length)
    (h2 : a.active_menu_item < a.menu_items.length) :
    ((fun s => handle_events s (.Key ⟨KeyCode.Down, .Press⟩))^[a.menu_items.length] a).active_menu_item
      = a.active_menu_item := by
  have hfun : (fun s => handle_events s (.Key ⟨KeyCode.Down, .Press⟩)) = menu_down :=
    funext fun s => handle_events_press_down s
  rw [hfun, (menu_down_iterate_active a.menu_items.length a h2).2,
    Nat.add_mod_right]
  exact Nat.mod_eq_of_lt h2

/-- Witness for C5 at the default state: three Down presses on the 3-item
list return the index to 0. -/
theorem claim_down_cycle_witness :
    1 ≤ App.default.menu_items.length ∧
    App.default.active_menu_item < App.default.menu_items.length ∧
    ((fun s => handle_events s (.Key ⟨KeyCode.Down, .Press⟩))^[App.default.menu_items.length] App.default).active_menu_item
      = App.default.active_menu_item :=
  ⟨by decide, by decide, claim_down_cycle App.default (by decide) (by decide)⟩

/-! ### C6: Up and Down are mutually inverse on the index -/

/-- C6: for every in-range state, an Up key-press followed by a Down
key-press (and vice versa) returns the selected index to its original
value. -/
theorem claim_up_down_inverse (a : App) (h1 : 1 ≤ a.menu_items.length)
    (h2 : a.active_menu_item < a.menu_items.length) :
    (handle_events (handle_events a (.Key ⟨KeyCode.Up, .Press⟩))
        (.Key ⟨KeyCode.Down, .Press⟩)).active_menu_item = a.active_menu_item ∧
    (handle_events (handle_events a (.Key ⟨KeyCode.Down, .Press⟩))
        (.Key ⟨KeyCode.Up, .Press⟩)).active_menu_item = a.active_menu_item := by
  rw [handle_events_press_up, handle_events_press_down,
    handle_events_press_down, handle_events_press_up]
  constructor
  · have hult : (menu_up a).active_menu_item < (menu_up a).menu_items.length := by
      rw [menu_up_items]; exact menu_up_lt a h2
    rw [menu_down_active_mod _ hult, menu_up_items, menu_up_active_mod a h2,
      Nat.mod_add_mod]
    have hsum : a.active_menu_item + (a.menu_items.length - 1) + 1 =
        a.active_menu_item + a.menu_items.length := by omega
    rw [hsum, Nat.add_mod_right]
    exact Nat.mod_eq_of_lt h2
  · have hdlt : (menu_down a).active_menu_item < (menu_down a).menu_items.length := by
      rw [menu_down_items]; exact menu_down_lt a h2
    rw [menu_up_active_mod _ hdlt, menu_down_items, menu_down_active_mod a h2,
      Nat.mod_add_mod]
    have hsum : a.active_menu_item + 1 + (a.menu_items.length - 1) =
        a.active_menu_item + a.menu_items.length := by omega
    rw [hsum, Nat.add_mod_right]
    exact Nat.mod_eq_of_lt h2

/-- Witness for C6 at the default state with index 1. -/
theorem claim_up_down_inverse_witness :
    1 ≤ App.default.menu_items.length ∧
    App.default.active_menu_item < App.default.menu_items.length ∧
    (handle_events (handle_events App.default (.Key ⟨KeyCode.Up, .Press⟩))
        (.Key ⟨KeyCode.Down, .Press⟩)).active_menu_item
      = App.default.active_menu_item :=
  ⟨by decide, by decide,
    (claim_up_down_inverse App.default (by decide) (by decide)).1⟩

/-! ### C7: the index invariant is preserved and the arithmetic is exact -/

lemma handle_key_event_items (a : App) (k : KeyEvent) :
    (handle_key_event a k).menu_items = a.menu_items := by
  rcases k with ⟨c, kd⟩
  cases c <;> simp only [handle_key_event] <;> (try split_ifs) <;>
    simp [menu_up_items, menu_down_items, exitApp]

lemma handle_key_event_lt (a : App) (k : KeyEvent)
    (h2 : a.active_menu_item < a.menu_items.length) :
    (handle_key_event a k).active_menu_item < a.menu_items.length := by
  rcases k with ⟨c, kd⟩
  cases c <;> simp only [handle_key_event] <;> (try split_ifs) <;>
    first
      | exact h2
      | exact menu_up_lt a h2
      | exact menu_down_lt a h2

lemma menu_up_int (a : App) (h1 : 1 ≤ a.menu_items.length)
    (h2 : a.active_menu_item < a.menu_items.length) :
    ((menu_up a).active_menu_item : Int) = menu_upZ a := by
  rw [menu_up_active]; unfold menu_upZ
  split <;> rename_i h <;> omega

lemma menu_down_int (a : App) (h1 : 1 ≤ a.menu_items.length)
    (h2 : a.active_menu_item < a.menu_items.length) :
    ((menu_down a).active_menu_item : Int) = menu_downZ a := by
  by_cases hc : a.active_menu_item = a.menu_items.length - 1
  · have hcZ : (a.active_menu_item : Int) = (a.menu_items.length : Int) - 1 := by
      omega
    rw [menu_down_active, if_pos hc]; unfold menu_downZ; rw [if_pos hcZ]
    simp
  · have hcZ : ¬((a.active_menu_item : Int) = (a.menu_items.length : Int) - 1) := by
      omega
    rw [menu_down_active, if_neg hc]; unfold menu_downZ; rw [if_neg hcZ]
    push_cast
    ring

/-- C7: under `item_count >= 1` and an in-range index, every key dispatch
keeps the index in range, and the truncated `Nat` subtractions in the Up
and Down handlers agree with exact integer arithmetic (no underflow or
overflow occurs). -/
theorem claim_index_invariant (a : App) (k : KeyEvent)
    (h1 : 1 ≤ a.menu_items.length)
    (h2 : a.active_menu_item < a.menu_items.length) :
    (handle_key_event a k).active_menu_item
        < (handle_key_event a k).menu_items.length ∧
    ((menu_up a).active_menu_item : Int) = menu_upZ a ∧
    ((menu_down a).active_menu_item : Int) = menu_downZ a := by
  refine ⟨?_, menu_up_int a h1 h2, menu_down_int a h1 h2⟩
  rw [handle_key_event_items]
  exact handle_key_event_lt a k h2

/-- Witness for C7 at the default state with an Up key event. -/
theorem claim_index_invariant_witness :
    1 ≤ App.default.menu_items.length ∧
    App.default.active_menu_item < App.default.menu_items.length ∧
    (handle_key_event App.default ⟨KeyCode.Up, .Press⟩).active_menu_item
      < (handle_key_event App.default ⟨KeyCode.Up, .Press⟩).menu_items.length :=
  ⟨by decide, by decide,
    (claim_index_invariant App.default ⟨KeyCode.Up, .Press⟩
      (by decide) (by decide)).1⟩

/-! ### C4: unhandled events are no-ops -/

/-- C4: any event that is not a key press of one of `q`, Up, `j`, Down, `k`
— including key release/repeat events and presses of other keys — leaves
the whole state unchanged. -/
theorem claim_unhandled_event_noop (a : App) (e : Event)
    (h : isHandledPress e = false) :
    handle_events a e = a := by
  cases e with
  | Key k =>
      rcases k with ⟨c, kd⟩
      cases kd with
      | Press =>
          simp only [isHandledPress, Bool.and_eq_false_iff] at h
          rcases h with h | h
          · simp at h
          · simp only [Bool.or_eq_false_iff, beq_eq_false_iff_ne, ne_eq] at h
            obtain ⟨⟨⟨⟨hup, hdown⟩, hq⟩, hj⟩, hk⟩ := h
            cases c with
            | Char ch =>
                have hq' : ch ≠ 'q' := fun hch => hq (by rw [hch])
                have hj' : ch ≠ 'j' := fun hch => hj (by rw [hch])
                have hk' : ch ≠ 'k' := fun hch => hk (by rw [hch])
                simp [handle_events, handle_key_event, hq', hj', hk']
            | Up => exact absurd rfl hup
            | Down => exact absurd rfl hdown
            | Left => rfl
            | Right => rfl
            | Enter => rfl
            | Esc => rfl
            | Backspace => rfl
            | Tab => rfl
      | Release => rfl
      | Repeat => rfl
  | Resize w hgt => rfl
  | FocusGained => rfl
  | FocusLost => rfl
  | Paste s => rfl
  | Mouse => rfl

/-- Witness for C4: a press of `x` at the default state changes nothing. -/
theorem claim_unhandled_event_noop_witness :
    isHandledPress (.Key ⟨KeyCode.Char 'x', .Press⟩) = false ∧
    handle_events App.default (.Key ⟨KeyCode.Char 'x', .Press⟩) = App.default :=
  ⟨by decide, claim_unhandled_event_noop App.default _ (by decide)⟩

/-! ### C8: the exit flag is a monotone latch -/

lemma handle_key_event_exit_mono (a : App) (k : KeyEvent)
    (h : a.exit = true) : (handle_key_event a k).exit = true := by
  rcases k with ⟨c, kd⟩
  cases c <;> simp only [handle_key_event] <;> (try split_ifs) <;>
    first
      | exact h
      | rw [menu_up_exit]; exact h
      | rw [menu_down_exit]; exact h
      | rfl

lemma handle_events_exit_mono (a : App) (e : Event)
    (h : a.exit = true) : (handle_events a e).exit = true := by
  cases e with
  | Key k =>
      simp only [handle_events]
      split
      · exact handle_key_event_exit_mono a k h
      · exact h
  | Resize w hgt => exact h
  | FocusGained => exact h
  | FocusLost => exact h
  | Paste s => exact h
  | Mouse => exact h

/-- C8: the exit flag is a monotone latch: once true it stays true over any
sequence of events, and a single event can only turn it from false to true
when it is a press of `q`. -/
theorem claim_exit_latch (a : App) (es : List Event) :
    (a.exit = true → (processEvents a es).exit = true) ∧
    (∀ e, (handle_events a e).exit = true →
      a.exit = true ∨ e = Event.Key ⟨KeyCode.Char 'q', .Press⟩) := by
  constructor
  · intro h
    unfold processEvents
    induction es generalizing a with
    | nil => exact h
    | cons e es ih => exact ih (handle_events a e) (handle_events_exit_mono a e h)
  · intro e he
    by_cases hx : a.exit = true
    · exact Or.inl hx
    · right
      cases e with
      | Key k =>
          rcases k with ⟨c, kd⟩
          cases kd with
          | Press =>
              cases c with
              | Char ch =>
                  by_cases hq : ch = 'q'
                  · rw [hq]
                  · exfalso
                    apply hx
                    by_cases hj : ch = 'j'
                    · rw [← he]
                      simp [handle_events, handle_key_event, hq, hj, menu_up_exit]
                    · by_cases hk : ch = 'k'
                      · rw [← he]
                        simp [handle_events, handle_key_event, hq, hj, hk,
                          menu_down_exit]
                      · rw [← he]
                        simp [handle_events, handle_key_event, hq, hj, hk]
              | Up =>
                  exact absurd ((menu_up_exit a).symm.trans he) hx
              | Down =>
                  exact absurd ((menu_down_exit a).symm.trans he) hx
              | Left => exact absurd he hx
              | Right => exact absurd he hx
              | Enter => exact absurd he hx
              | Esc => exact absurd he hx
              | Backspace => exact absurd he hx
              | Tab => exact absurd he hx
          | Release => exact absurd he hx
          | Repeat => exact absurd he hx
      | Resize w hgt => exact absurd he hx
      | FocusGained => exact absurd he hx
      | FocusLost => exact absurd he hx
      | Paste s => exact absurd he hx
      | Mouse => exact absurd he hx

/-- Witness for C8: a state with the latch set keeps it set across a Down
press. -/
theorem claim_exit_latch_witness :
    ({ App.default with exit := true } : App).exit = true ∧
    (processEvents { App.default with exit := true }
      [.Key ⟨KeyCode.Down, .Press⟩]).exit = true :=
  ⟨rfl, (claim_exit_latch { App.default with exit := true }
    [.Key ⟨KeyCode.Down, .Press⟩]).1 rfl⟩

/-! ### C10: quitting is case-sensitive -/

/-- C10: pressing uppercase `Q` leaves the state unchanged and only
lowercase `q` sets the exit flag, even though the footer hint renders the
key as `<Q>`. -/
theorem claim_quit_case_sensitive (a : App) :
    handle_events a (.Key ⟨KeyCode.Char 'Q', .Press⟩) = a ∧
    (handle_events a (.Key ⟨KeyCode.Char 'q', .Press⟩)).exit = true ∧
    (⟨"<Q> ", true, some Color.Blue⟩ : Span) ∈ (render a).instructions := by
  refine ⟨?_, rfl, ?_⟩
  · simp [handle_events, handle_key_event]
  · simp [render]

/-! ### C2: the rendered frame -/

/-- Counterexample to C2 as stated: the top title of the rendered frame is
not the string `"Main Menu"` (the code renders
`" Test Application Main Menu "`). -/
theorem claim_render_counterexample :
    (render App.default).title.content ≠ "Main Menu" := by decide

/-- C2 amended: the render produces a thick-bordered frame with the
centered bold top title `" Test Application Main Menu "`, a centered
bottom instruction line made of `" Quit "` and the blue bold key hint
`"<Q> "`, and one centered line per item label in original order, where
exactly the entry at the selected index is bold red and all others are in
default style. -/
theorem claim_render_amended (a : App) :
    (render a).borderThick = true ∧
    (render a).title = ⟨" Test Application Main Menu ", true, none⟩ ∧
    (render a).titleCentered = true ∧
    (render a).instructions =
      [⟨" Quit ", false, none⟩, ⟨"<Q> ", true, some Color.Blue⟩] ∧
    (render a).instructionsBottom = true ∧
    (render a).instructionsCentered = true ∧
    (render a).menuCentered = true ∧
    (render a).menu.length = a.menu_items.length ∧
    ∀ i, i < a.menu_items.length →
      (render a).menu.getD i ⟨"", false, none⟩ =
        if a.active_menu_item = i
        then ⟨a.menu_items.getD i "", true, some Color.Red⟩
        else ⟨a.menu_items.getD i "", false, none⟩ := by
  refine ⟨rfl, rfl, rfl, rfl, rfl, rfl, rfl, by simp [render], ?_⟩
  intro i hi
  have hlen : i < (render a).menu.length := by simpa [render] using hi
  rw [List.getD_eq_getElem _ _ hlen, List.getD_eq_getElem _ _ hi]
  simp only [render, List.getElem_map, List.getElem_enum]

/-- Witness for C2 (amended) at the default state: the first menu line is
`"One"` in bold red. -/
theorem claim_render_amended_witness :
    0 < App.default.menu_items.length ∧
    (render App.default).menu.getD 0 ⟨"", false, none⟩ =
      ⟨"One", true, some Color.Red⟩ := by
  refine ⟨by decide, ?_⟩
  have h := (claim_render_amended App.default).2.2.2.2.2.2.2.2 0 (by decide)
  simpa [App.default] using h

/-! ### C9: I/O failures are fatal and success means the latch was set -/

lemma run_ok_exit (ds : List (Except String Unit)) :
    ∀ (a : App) (es : List (Except String Event)) (s : App),
      run a ds es = some (Except.ok s) → s.exit = true := by
  induction ds with
  | nil =>
      intro a es s h
      rw [run.eq_def] at h
      by_cases he : a.exit
      · simp [he] at h
        rw [← h]
        exact he
      · simp [he] at h
  | cons d ds ih =>
      intro a es s h
      rw [run.eq_def] at h
      by_cases he : a.exit
      · simp [he] at h
        rw [← h]
        exact he
      · simp [he] at h
        cases d with
        | error msg => simp at h
        | ok u =>
            cases es with
            | nil => simp at h
            | cons e es' =>
                cases e with
                | error msg => simp at h
                | ok ev => exact ih (handle_events a ev) es' s (by simpa using h)

/-- C9: a failing draw or a failing event read makes `run` return that very
error at once, with no retry, no further iteration and no key handling in
the failing step; `run` returns success only with the exit latch set, and
immediately when it already is. -/
theorem claim_run_error_propagation (a : App) (ds : List (Except String Unit))
    (es : List (Except String Event)) (msg : String) :
    (a.exit = true → run a ds es = some (.ok a)) ∧
    (a.exit = false → run a (.error msg :: ds) es = some (.error msg)) ∧
    (a.exit = false →
      run a (.ok () :: ds) (.error msg :: es) = some (.error msg)) ∧
    (∀ s, run a ds es = some (.ok s) → s.exit = true) := by
  refine ⟨?_, ?_, ?_, fun s h => run_ok_exit ds a es s h⟩
  · intro h
    rw [run.eq_def]
    simp [h]
  · intro h
    rw [run.eq_def]
    simp [h]
  · intro h
    rw [run.eq_def]
    simp [h]

/-- Witness for C9: from the default state, a failing first draw makes the
loop return that error. -/
theorem claim_run_error_propagation_witness :
    App.default.exit = false ∧
    run App.default [Except.error "io"] [] = some (Except.error "io") :=
  ⟨rfl, (claim_run_error_propagation App.default [] [] "io").2.1 rfl⟩
